import Mathlib

/-!
Verification of the metacog reasoning-orchestration core.

Shallow embedding of the reasoning-orchestration engine of
`src/index.ts` (classes `OmniCognizantTactician` and `MetacognitionMCP`),
with theorems checking the natural-language specification against it.

Modelling conventions:
* JavaScript `number` is modelled by `ℚ` (and by `ℝ` where the source
  computes a square root), with JS falsy-coalescing `x || d` modelled
  explicitly by `jsOr`.
* Mutation is modelled by explicit state passing; `Math.random()` is an
  explicit parameter `r` (one value per draw, `0 ≤ r < 1`).
* A thrown JS exception is an `Except.error` carrying the message.
* Free-text / timestamp payload fields that no embedded function reads
  (ids built from `Date.now()`, `creationTimestamp`, …) are kept as plain
  data or noted in the doc comment of the embedding.
-/

namespace Metacog

/-- JS `x || d` on numbers: `0` is falsy (we do not model `NaN`). -/
def jsOr (x d : ℚ) : ℚ := if x = 0 then d else x

/-- `CognitiveComplex` (src/index.ts:285-288): an amplitude of the
orchestrator's cognitive state. -/
structure CognitiveComplex where
  confidence : ℚ
  potential : ℚ
deriving DecidableEq, Repr

/-- Strategy names; the source keys registries by the string-valued enum
`ReasoningStrategy` (src/index.ts:58-80). -/
abbrev StrategyName := String

/-- Error values: the message of the thrown JS `Error`. -/
abbrev Err := String

/-- `CognitiveReasoningState` (src/index.ts:290-301), the orchestrator's
cognitive state.  `creationTimestamp`/`lastMeasurement` (wall-clock
`Date`s) are not modelled. -/
structure CognitiveReasoningState where
  id : String
  concepts : List String
  strategies : List StrategyName
  conceptualAmplitude : List CognitiveComplex
  coherenceLevel : ℚ
  interconnectedPartners : List String
  decoherenceRate : ℚ
  measurementCount : ℕ
deriving DecidableEq, Repr

/-- `Premise` (src/index.ts:157-166); the optional explanatory payload
(`cognitiveWeight`, `evidenceSupport`, `dependencies`, `content`) is not
read by any embedded function and is omitted. -/
structure Premise where
  id : String
  statement : String
  confidence : ℚ
  source : String
deriving DecidableEq, Repr

/-- `Evidence` (src/index.ts:168-178); optional payload omitted as above. -/
structure Evidence where
  id : String
  type : String
  content : String
  strength : ℚ
  source : String
deriving DecidableEq, Repr

/-- `ConvergenceMetrics` (src/index.ts:314-320). -/
structure ConvergenceMetrics where
  cognitiveCoherence : ℚ
  strategicAlignment : ℚ
  evidenceConsistency : ℚ
  conclusionStability : ℚ
  overallConvergence : ℚ
deriving DecidableEq, Repr

/-- `Conclusion` (src/index.ts:180-189); `alternatives` and
`cognitiveResolutionBasis` are unread payload and omitted. -/
structure Conclusion where
  id : Option String
  statement : String
  confidence : ℚ
  reasoning : String
  premises : List String
  convergenceMetrics : Option ConvergenceMetrics
deriving DecidableEq, Repr

/-- `ReasoningStep` (src/index.ts:191-203).  Of `metadata` only
`processingTimeMs` is read (by the performance tracker) and is kept. -/
structure ReasoningStep where
  id : String
  type : String
  strategyName : Option StrategyName
  premises : List Premise
  conclusion : Conclusion
  confidence : ℚ
  evidence : List Evidence
  processingTimeMs : Option ℚ
deriving DecidableEq, Repr

/-- `ReasoningChain` (src/index.ts:205-222).  Of `metadata` only
`convergenceScore` is read/written by the embedded functions;
`creationTimestamp` and `totalProcessingTime` are wall-clock values and
are not modelled. -/
structure ReasoningChain where
  id : String
  goal : String
  steps : List ReasoningStep
  finalConclusion : Option Conclusion
  cognitiveState : Option CognitiveReasoningState
  convergenceScore : ℚ
deriving DecidableEq, Repr

/-- `calculateConvergenceMetrics` (src/index.ts:2436-2471), a pure
function of the chain.  `chain.cognitiveState?.coherenceLevel || 1.0`
is the JS falsy-coalescing read modelled by `jsOr`. -/
def calculateConvergenceMetrics (chain : ReasoningChain) : ConvergenceMetrics :=
  match chain.steps with
  | [] =>
      { cognitiveCoherence := 1, strategicAlignment := 0, evidenceConsistency := 0
        conclusionStability := 0, overallConvergence := 0 }
  | s0 :: rest =>
      let steps := s0 :: rest
      let cognitiveCoherence :=
        match chain.cognitiveState with
        | some st => jsOr st.coherenceLevel 1
        | none => 1
      let confidences := steps.map (·.confidence)
      let n : ℚ := confidences.length
      let avgConfidence := confidences.sum / n
      let confidenceVariance := (confidences.map (fun c => (c - avgConfidence) ^ 2)).sum / n
      let strategicAlignment := max 0 (1 - confidenceVariance)
      let evidenceCount : ℕ := (steps.map (·.evidence.length)).sum
      let evidenceConsistency :=
        if 0 < evidenceCount then min 1 ((evidenceCount : ℚ) / (steps.length : ℚ)) else 0
      let conclusionStability :=
        if 1 < steps.length then
          max 0 ((rest.getLastD s0).confidence - s0.confidence + 1 / 2)
        else 1 / 2
      let overallConvergence :=
        cognitiveCoherence * (3 / 10) + strategicAlignment * (3 / 10) +
          evidenceConsistency * (2 / 10) + conclusionStability * (2 / 10)
      { cognitiveCoherence, strategicAlignment, evidenceConsistency,
        conclusionStability, overallConvergence }

/-- Per-strategy performance record (src/index.ts:2023-2028). -/
structure PerfRecord where
  totalExecutions : ℕ
  averageConfidence : ℚ
  averageProcessingTime : ℚ
  successRate : ℚ
deriving DecidableEq, Repr

/-- The record each strategy starts with (src/index.ts:2169-2177):
`totalExecutions: 0, averageConfidence: 0, averageProcessingTime: 0,
successRate: 1.0`. -/
def initPerfRecord : PerfRecord :=
  { totalExecutions := 0, averageConfidence := 0
    averageProcessingTime := 0, successRate := 1 }

/-- The process-wide performance tracker `performanceMetrics`, a map from
strategy name to record. -/
abbrev PerfMap := StrategyName → Option PerfRecord

/-- `updatePerformanceMetrics` (src/index.ts:2499-2511).  The
`if (step.metadata?.processingTimeMs)` truthiness guard skips the
processing-time update when the field is absent or `0`. -/
def updatePerformanceMetrics (perf : PerfMap) (strategyName : StrategyName)
    (step : ReasoningStep) : PerfMap :=
  match perf strategyName with
  | none => perf
  | some m =>
      let n : ℕ := m.totalExecutions + 1
      let averageConfidence := (m.averageConfidence * ((n : ℚ) - 1) + step.confidence) / (n : ℚ)
      let averageProcessingTime :=
        match step.processingTimeMs with
        | some t =>
            if t = 0 then m.averageProcessingTime
            else (m.averageProcessingTime * ((n : ℚ) - 1) + t) / (n : ℚ)
        | none => m.averageProcessingTime
      let currentSuccessRate : ℚ := if 7 / 10 ≤ step.confidence then 1 else 0
      let successRate := (m.successRate * ((n : ℚ) - 1) + currentSuccessRate) / (n : ℚ)
      fun s => if s = strategyName then
        some { totalExecutions := n, averageConfidence, averageProcessingTime, successRate }
      else perf s

/-- The scan of the cumulative-weight loop in `weightedRandomSelection`
(src/index.ts:2428-2432): first index whose running cumulative weight
reaches `random`, starting from accumulator `cumulative`. -/
def cumFindIndex (random : ℚ) : ℚ → List ℚ → Option ℕ
  | _, [] => none
  | cumulative, p :: rest =>
      let c := cumulative + p
      if random ≤ c then some 0 else (cumFindIndex random c rest).map (· + 1)

/-- `weightedRandomSelection` (src/index.ts:2424-2434) with the
`Math.random()` draw `r` made explicit.  When the total weight is `0` it
returns `Math.floor(r * length)`; otherwise it scans cumulative weights
and falls back to the last index. -/
def weightedRandomSelection (r : ℚ) (probabilities : List ℚ) : ℕ :=
  let total := probabilities.sum
  if total = 0 then (⌊r * (probabilities.length : ℚ)⌋).toNat
  else
    let random := r * total
    (cumFindIndex random 0 probabilities).getD (probabilities.length - 1)

/-- `probabilities.at(index % probabilities.length) || 0`
(src/index.ts:2410): on an empty list `at` yields `undefined`, coalesced
to `0`; otherwise the cyclically-indexed entry (`|| 0` is the identity on
a present number apart from mapping `0` to itself). -/
def selectionProbAt (probabilities : List ℚ) (i : ℕ) : ℚ :=
  match probabilities.get? (i % probabilities.length) with
  | some p => p
  | none => 0

/-- The per-candidate weight list built by `cognitiveSelectStrategy`
(src/index.ts:2406-2414): squared amplitude magnitude at the cyclic
index, times `averageConfidence * successRate` when the tracker has a
record for the strategy, times `0.5` when it has none. -/
def cognitiveSelectionWeights (perf : PerfMap) (state : CognitiveReasoningState)
    (availableStrategies : List StrategyName) : List ℚ :=
  let probabilities := state.conceptualAmplitude.map
    (fun amp => amp.confidence * amp.confidence + amp.potential * amp.potential)
  availableStrategies.enum.map (fun p =>
    let baseProb := selectionProbAt probabilities p.1
    let performanceWeight : ℚ :=
      match perf p.2 with
      | some m => m.averageConfidence * m.successRate
      | none => 1 / 2
    baseProb * performanceWeight)

/-- JS `a || b` on possibly-undefined strings (src/index.ts:2417):
`undefined` and the empty string are falsy. -/
def jsOrStr (a b : Option String) : Option String :=
  match a with
  | some s => if s = "" then b else some s
  | none => b

/-- `cognitiveSelectStrategy` (src/index.ts:2404-2422): draws an index
from the weighted distribution, falls back to the first available
strategy, and as a side effect increments `measurementCount` and decays
`coherenceLevel` by `0.95`.  Returns `none` for the selected strategy
exactly when `availableStrategies` is empty (JS `undefined`). -/
def cognitiveSelectStrategy (perf : PerfMap) (cognitiveState : CognitiveReasoningState)
    (availableStrategies : List StrategyName) (r : ℚ) :
    Option StrategyName × CognitiveReasoningState :=
  let weightedProbabilities := cognitiveSelectionWeights perf cognitiveState availableStrategies
  let selectedIndex := weightedRandomSelection r weightedProbabilities
  let selectedStrategy :=
    jsOrStr (availableStrategies.get? selectedIndex) (availableStrategies.get? 0)
  (selectedStrategy,
    { cognitiveState with
        measurementCount := cognitiveState.measurementCount + 1
        coherenceLevel := cognitiveState.coherenceLevel * (95 / 100) })

/-- The `reasoning` sub-configuration (src/index.ts:1982-1987);
`strategySynthesis`/`evidenceWeighting` are carried but unread by the
embedded functions. -/
structure ReasoningConfig where
  strategySynthesis : Bool
  evidenceWeighting : String
  convergenceTarget : ℚ
  maxStepsPerChain : ℕ
deriving DecidableEq, Repr

/-- The constructor's defaulting of the `reasoning` block
(src/index.ts:1982-1987): `convergenceTarget ?? 0.99`,
`maxStepsPerChain ?? 10`. -/
def mkReasoningConfig (strategySynthesis : Option Bool) (evidenceWeighting : Option String)
    (convergenceTarget : Option ℚ) (maxStepsPerChain : Option ℕ) : ReasoningConfig :=
  { strategySynthesis := strategySynthesis.getD true
    evidenceWeighting := evidenceWeighting.getD "bayesian"
    convergenceTarget := convergenceTarget.getD (99 / 100)
    maxStepsPerChain := maxStepsPerChain.getD 10 }

/-- The config a default-constructed `OmniCognizantTactician` carries. -/
def defaultReasoningConfig : ReasoningConfig :=
  mkReasoningConfig none none none none

/-- The loop bound `this.config.reasoning?.maxStepsPerChain || 10`
(src/index.ts:2084). -/
def effectiveMaxSteps (cfg : ReasoningConfig) : ℕ :=
  if cfg.maxStepsPerChain = 0 then 10 else cfg.maxStepsPerChain

/-- The convergence test's target
`convergenceTarget || this.config.reasoning?.convergenceTarget || 0.85`
(src/index.ts:2099): caller value if present and truthy, else the config
value if truthy, else `0.85`. -/
def resolveConvergenceTarget (callerTarget : Option ℚ) (cfgTarget : ℚ) : ℚ :=
  jsOr (callerTarget.getD 0) (jsOr cfgTarget (85 / 100))

/-- A strategy's `executeStep` as observed by the step loop: a function
of the current chain that either yields a step or throws
(src/index.ts:2111-2128 passes the call through uncaught). -/
abbrev StrategyFn := ReasoningChain → Except Err ReasoningStep

/-- The strategy registry `this.strategies` (src/index.ts:2146-2167). -/
abbrev StrategyRegistry := StrategyName → Option StrategyFn

/-- `selectedStrategies[i % selectedStrategies.length]!`
(src/index.ts:2087): `undefined` (modelled `none`) on an empty list. -/
def roundRobinSelect (selected : List StrategyName) (i : ℕ) : Option StrategyName :=
  selected.get? (i % selected.length)

/-- Result of `_executeReasoningSteps`, with `selections` counting the
loop iterations (each performs exactly one strategy selection). -/
structure ExecResult where
  chain : ReasoningChain
  perf : PerfMap
  stepsExecuted : ℕ
  convergenceAchieved : Bool
  selections : ℕ

/-- Add one performed selection to a loop outcome. -/
def bumpSelections (r : Except Err ExecResult) : Except Err ExecResult :=
  r.map (fun res => { res with selections := res.selections + 1 })

/-- The strategy-selection step of one loop iteration
(src/index.ts:2085-2087): cognitive selection (which also mutates the
cognitive state carried in the chain) when one is present, round-robin
indexing otherwise. -/
def iterationSelection (perf : PerfMap) (selected : List StrategyName) (r : ℚ)
    (i : ℕ) (chain : ReasoningChain) : Option StrategyName × ReasoningChain :=
  match chain.cognitiveState with
  | some cs =>
      let sc := cognitiveSelectStrategy perf cs selected r
      (sc.1, { chain with cognitiveState := some sc.2 })
  | none => (roundRobinSelect selected i, chain)

/-- One-iteration-at-a-time embedding of the `for` loop of
`_executeReasoningSteps` (src/index.ts:2084-2106): `i` is the loop
index, `fuel` the remaining iterations of the `maxStepsPerChain` bound.
Each iteration selects a strategy, skips (`continue`) when the name is
`undefined` or unregistered, executes the strategy with **no try/catch**
(an `Except.error` propagates, aborting the loop), appends the step,
updates the tracker, recomputes convergence, records the score on the
chain and stops once the target is reached. -/
def execStepsAux (registry : StrategyRegistry) (rands : ℕ → ℚ)
    (selected : List StrategyName) (target : ℚ) :
    ℕ → ℕ → ReasoningChain → PerfMap → ℕ → Except Err ExecResult
  | _, 0, chain, perf, stepsExecuted =>
      .ok { chain, perf, stepsExecuted, convergenceAchieved := false, selections := 0 }
  | i, fuel + 1, chain, perf, stepsExecuted =>
      match iterationSelection perf selected (rands i) i chain with
      | (none, chain1) =>
          bumpSelections (execStepsAux registry rands selected target (i + 1) fuel chain1 perf stepsExecuted)
      | (some strategyName, chain1) =>
        match registry strategyName with
        | none =>
            bumpSelections (execStepsAux registry rands selected target (i + 1) fuel chain1 perf stepsExecuted)
        | some strategy =>
          match strategy chain1 with
          | .error e => .error e
          | .ok step =>
            let chain2 := { chain1 with steps := chain1.steps ++ [step] }
            let stepsExecuted1 := stepsExecuted + 1
            let perf1 := updatePerformanceMetrics perf strategyName step
            let convergenceMetrics := calculateConvergenceMetrics chain2
            let convergenceAchieved := target ≤ convergenceMetrics.overallConvergence
            let chain3 := { chain2 with convergenceScore := convergenceMetrics.overallConvergence }
            if convergenceAchieved then
              .ok { chain := chain3, perf := perf1, stepsExecuted := stepsExecuted1
                    convergenceAchieved := true, selections := 1 }
            else
              bumpSelections (execStepsAux registry rands selected target (i + 1) fuel chain3 perf1 stepsExecuted1)

/-- `_executeReasoningSteps` (src/index.ts:2078-2109) for a given
already-selected strategy list (the `strategies ||
selectOptimalStrategies(...)` argument). -/
def executeReasoningSteps (registry : StrategyRegistry) (rands : ℕ → ℚ)
    (selected : List StrategyName) (callerTarget : Option ℚ) (cfg : ReasoningConfig)
    (chain : ReasoningChain) (perf : PerfMap) : Except Err ExecResult :=
  execStepsAux registry rands selected
    (resolveConvergenceTarget callerTarget cfg.convergenceTarget)
    0 (effectiveMaxSteps cfg) chain perf 0

/-- Accumulator pass of `jsSetDedup`: keep each element the first time
it is seen, in order. -/
def jsSetDedupAux (seen : List String) : List String → List String
  | [] => []
  | x :: xs =>
      if x ∈ seen then jsSetDedupAux seen xs
      else x :: jsSetDedupAux (x :: seen) xs

/-- `[...new Set(l)]` (src/index.ts:2494): deduplication keeping the
first occurrence of each element, in order. -/
def jsSetDedup (l : List String) : List String :=
  jsSetDedupAux [] l

/-- `synthesizeFinalConclusion` (src/index.ts:2473-2497): picks the
highest-confidence step via `reduce` (keeping the earlier step on ties,
as `>` is strict), prefixes its conclusion statement, deduplicates the
union of premise ids, and boosts the average confidence by `1.1`,
capped at `1`. -/
def synthesizeFinalConclusion (chain : ReasoningChain) : Conclusion :=
  match chain.steps with
  | [] =>
      { id := none, statement := "No reasoning steps completed", confidence := 0
        reasoning := "Insufficient data for conclusion", premises := []
        convergenceMetrics := none }
  | s0 :: rest =>
      let steps := s0 :: rest
      let bestStep := rest.foldl
        (fun best current => if best.confidence < current.confidence then current else best) s0
      let allPremises := steps.flatMap (fun step => step.premises.map (·.id))
      let avgConfidence := (steps.map (·.confidence)).sum / (steps.length : ℚ)
      { id := some ("final_conclusion_" ++ chain.id)
        statement := "Unified reasoning conclusion: " ++ bestStep.conclusion.statement
        confidence := min 1 (avgConfidence * (11 / 10))
        reasoning := "Synthesized from " ++ toString steps.length ++
          " reasoning steps using multiple strategies"
        premises := jsSetDedup allPremises
        convergenceMetrics := some (calculateConvergenceMetrics chain) }

/-- `createCognitiveSuperposition` (src/index.ts:2346-2378), the
orchestrator-side creation.  The goal-derived concept extraction
(lowercasing + regex split + length filter, lines 2349-2352), the
strategy-set defaulting (lines 2354-2357) and the `cos`/`sin`
floating-point amplitude initialization (lines 2358-2363) are taken as
the parameters `concepts`, `strategies`, `conceptualAmplitude`; the
state initialization itself (lines 2364-2374) — coherence `1.0`,
measurement count `0`, `decoherenceRate || 0.01` — follows the source. -/
def createCognitiveSuperpositionOrch (stateId : String) (concepts : List String)
    (strategies : List StrategyName) (conceptualAmplitude : List CognitiveComplex)
    (cfgDecoherenceRate : ℚ) : CognitiveReasoningState :=
  { id := stateId, concepts, strategies, conceptualAmplitude
    coherenceLevel := 1, interconnectedPartners := []
    decoherenceRate := jsOr cfgDecoherenceRate (1 / 100)
    measurementCount := 0 }

/-- `CognitiveWeight` (src/index.ts:2590-2593), generic in the number
type so that creation can be stated over `ℝ` (it takes a square root)
and resolution also over `ℚ`. -/
structure CognitiveWeight (α : Type) where
  confidence : α
  potential : α
deriving DecidableEq, Repr

/-- `CognitiveSuperpositionState` (src/index.ts:2595-2605), the
`MetacognitionMCP`-side state.  `createdAt`/`lastResolvedAt` are
`Date.now()` wall-clock values and are not modelled. -/
structure CognitiveSuperpositionState (α : Type) where
  id : String
  concepts : List String
  hypothesisWeights : List (CognitiveWeight α)
  coherence : α
  linkedStateIds : List String
  instabilityRate : α
  resolutionCount : ℕ
deriving DecidableEq, Repr

/-- `_createCognitiveSuperposition` (src/index.ts:2747-2764): rejects an
empty concept list, otherwise gives every concept the weight
`1/sqrt(n)` on both components, coherence `1.0` and resolution count
`0`.  The time-based state id is modelled by a fixed prefix. -/
noncomputable def createCognitiveSuperpositionMCP (concepts : List String) :
    Except Err (CognitiveSuperpositionState ℝ) :=
  if concepts = [] then
    .error "Cannot create a cognitive superposition from an empty set of concepts."
  else
    let weightMagnitude : ℝ := 1 / Real.sqrt (concepts.length : ℝ)
    .ok { id := "cogstate"
          concepts
          hypothesisWeights := concepts.map
            (fun _ => { confidence := weightMagnitude, potential := weightMagnitude })
          coherence := 1, linkedStateIds := [], instabilityRate := 5 / 100
          resolutionCount := 0 }

/-- The two resolution methods of `_resolveCognitiveState`. -/
inductive ResolutionMethod where
  | highestConfidence
  | weightedRandom
deriving DecidableEq, Repr

/-- `CognitiveResolutionResult` (src/index.ts:2607-2615);
`resolutionId`/`timestamp` are `Date.now()` values and not modelled. -/
structure CognitiveResolutionResult (α : Type) where
  stateId : String
  resolvedConcept : String
  reasoningPath : List String
  confidence : α
  postResolutionCoherence : α
deriving DecidableEq, Repr

/-- The `findIndex(p => (cumulative += p) >= random)` scan of
`_resolveCognitiveState`'s weighted branch (src/index.ts:2777-2778). -/
def cumFindIndexGe {α : Type} [LinearOrderedField α] (random : α) :
    α → List α → Option ℕ
  | _, [] => none
  | cumulative, p :: rest =>
      let c := cumulative + p
      if random ≤ c then some 0 else (cumFindIndexGe random c rest).map (· + 1)

/-- The `selectedIndex` computation of `_resolveCognitiveState`
(src/index.ts:2771-2780), as a JS array index (`-1` for `indexOf` on a
missing value, hence `ℤ`): `highest_confidence` takes
`indexOf(Math.max(...))` (`-1` on an empty list, as `Math.max()` is
`-Infinity`); the weighted branch uses the explicit draw `r` and falls
back to the last index. -/
def resolveSelectedIndex {α : Type} [LinearOrderedField α] [DecidableEq α]
    (probabilities : List α) (method : ResolutionMethod) (r : α) : ℤ :=
  match method with
  | .highestConfidence =>
      match probabilities.max? with
      | none => -1
      | some m => (probabilities.indexOf m : ℤ)
  | .weightedRandom =>
      let total := probabilities.sum
      let random := r * total
      match cumFindIndexGe random 0 probabilities with
      | some i => (i : ℤ)
      | none => (probabilities.length : ℤ) - 1

/-- `_resolveCognitiveState` (src/index.ts:2766-2798), acting on a given
state (the `NotFound` lookup of the process-wide map is upstream of this
function).  Selection probabilities are the squares of the `confidence`
components only.  An out-of-range `selectedIndex` makes
`concepts[selectedIndex]` `undefined` and throws.  On success the
state's resolution count is incremented and its coherence multiplied by
`0.9`. -/
def resolveCognitiveState {α : Type} [LinearOrderedField α] [DecidableEq α]
    (state : CognitiveSuperpositionState α) (method : ResolutionMethod) (r : α) :
    Except Err (CognitiveResolutionResult α × CognitiveSuperpositionState α) :=
  let probabilities := state.hypothesisWeights.map (fun w => w.confidence * w.confidence)
  let selectedIndex : ℤ := resolveSelectedIndex probabilities method r
  let resolvedConcept : Option String :=
    if selectedIndex < 0 then none else state.concepts.get? selectedIndex.toNat
  match resolvedConcept with
  | none => .error "Failed to select a concept during resolution."
  | some concept =>
      let newState :=
        { state with
            resolutionCount := state.resolutionCount + 1
            coherence := state.coherence * (9 / 10) }
      .ok ({ stateId := state.id
             resolvedConcept := concept
             reasoningPath := [concept]
             confidence :=
               if selectedIndex < 0 then 0
               else (probabilities.get? selectedIndex.toNat).getD 0
             postResolutionCoherence := newState.coherence }, newState)

/-- The selection index the claim attributes to `highest_confidence`
resolution, written from the spec's words for comparison with the code:
first index maximizing `confidence² + potential²` (the code instead
maximizes `confidence²` alone). -/
def claimedHighestConfidenceIndex {α : Type} [LinearOrderedField α] [DecidableEq α]
    (weights : List (CognitiveWeight α)) : ℤ :=
  let magnitudes := weights.map (fun w => w.confidence * w.confidence + w.potential * w.potential)
  match magnitudes.max? with
  | none => -1
  | some m => (magnitudes.indexOf m : ℤ)

/-- The performance weight the claim attributes to the cognitive
selector, written from the spec's words for comparison with the code:
`averageConfidence × successRate`, with `0.5` for a strategy that has no
execution history yet (the code instead keys the `0.5` default on the
absence of a tracker record, and every registered strategy starts with
the record `initPerfRecord`, giving weight `0·1 = 0`). -/
def claimedPerformanceWeight (record : Option PerfRecord) : ℚ :=
  match record with
  | some m => if m.totalExecutions = 0 then 1 / 2 else m.averageConfidence * m.successRate
  | none => 1 / 2

/-- The weight list the claim attributes to `cognitiveSelectStrategy`,
for comparison with `cognitiveSelectionWeights`. -/
def claimedSelectionWeights (perf : PerfMap) (state : CognitiveReasoningState)
    (availableStrategies : List StrategyName) : List ℚ :=
  let probabilities := state.conceptualAmplitude.map
    (fun amp => amp.confidence * amp.confidence + amp.potential * amp.potential)
  availableStrategies.enum.map (fun p =>
    selectionProbAt probabilities p.1 * claimedPerformanceWeight (perf p.2))

/-! ## Concrete fixtures

Small concrete values used to evaluate the embedded functions at
explicit inputs (counterexamples and witnesses). -/

/-- A freshly initialized chain, as built by `initializeReasoningChain`
(src/index.ts:2329-2344): no steps, no cognitive state, convergence
score `0`. -/
def freshReasoningChain (chainId goal : String) : ReasoningChain :=
  { id := chainId, goal, steps := [], finalConclusion := none
    cognitiveState := none, convergenceScore := 0 }

/-- A minimal evidence record. -/
def sampleEvidence (evId : String) : Evidence :=
  { id := evId, type := "Empirical", content := "fact", strength := 1, source := "test" }

/-- A minimal reasoning step with the given confidence, conclusion
statement, premise ids and evidence. -/
def sampleStep (stepId : String) (conf : ℚ) (statement : String)
    (premiseIds : List String) (evidence : List Evidence) : ReasoningStep :=
  { id := stepId, type := "Sample", strategyName := none
    premises := premiseIds.map (fun pid =>
      { id := pid, statement := "premise", confidence := 1, source := "test" })
    conclusion := { id := none, statement, confidence := conf, reasoning := "sample"
                    premises := premiseIds, convergenceMetrics := none }
    confidence := conf, evidence, processingTimeMs := none }

/-- The empty performance tracker (no records at all). -/
def perfNone : PerfMap := fun _ => none

/-- A random stream that always draws `0`. -/
def randsZero : ℕ → ℚ := fun _ => 0

/-- A registry with the single strategy `"Boom"` whose `executeStep`
always throws. -/
def boomRegistry : StrategyRegistry := fun n =>
  if n = "Boom" then some (fun _ => .error "boom") else none

/-- A registry with the single strategy `"Steady"` that always succeeds
with a step of confidence `1/2` carrying one piece of evidence: every
recomputed convergence score of a chain of such steps is `9/10`. -/
def steadyRegistry : StrategyRegistry := fun n =>
  if n = "Steady" then
    some (fun _ => .ok (sampleStep "s" (1 / 2) "steady" [] [sampleEvidence "e"]))
  else none

/-- Two-step chain with confidences `0` and `1` (one evidence each):
its `conclusionStability` is `3/2` and its `overallConvergence` is
`41/40`, both above `1`. -/
def chainC5 : ReasoningChain :=
  { freshReasoningChain "c5" "goal" with
      steps := [sampleStep "s1" 0 "A" [] [sampleEvidence "e1"],
                sampleStep "s2" 1 "B" [] [sampleEvidence "e2"]] }

/-- One-step chain whose single conclusion statement is `"X"` and whose
premise ids contain a duplicate. -/
def chainC8 : ReasoningChain :=
  { freshReasoningChain "c8" "goal" with
      steps := [sampleStep "s1" (1 / 2) "X" ["p1", "p2", "p1"] []] }

/-- A superposition state whose two weights have equal `confidence` but
different `potential` components, so `confidence²` and
`confidence² + potential²` pick different indices. -/
def stateC3 : CognitiveSuperpositionState ℚ :=
  { id := "st3", concepts := ["a", "b"]
    hypothesisWeights := [{ confidence := 1, potential := 2 },
                          { confidence := 1, potential := 3 }]
    coherence := 1, linkedStateIds := [], instabilityRate := 5 / 100
    resolutionCount := 0 }

/-- An orchestrator cognitive state with the single amplitude `(1, 0)`. -/
def stateC7 : CognitiveReasoningState :=
  { id := "st7", concepts := [], strategies := []
    conceptualAmplitude := [{ confidence := 1, potential := 0 }]
    coherenceLevel := 1, interconnectedPartners := [], decoherenceRate := 0
    measurementCount := 0 }

/-- A tracker holding exactly the freshly-initialized record for
`"Abductive"` — the situation right after `initializeStrategies`, before
any execution. -/
def perfC7 : PerfMap := fun n =>
  if n = "Abductive" then some initPerfRecord else none

/-- Folding a sequence of selector-driven measurements (each a
`cognitiveSelectStrategy` call with its own tracker snapshot, candidate
list and random draw) over an orchestrator cognitive state — the only
operation of the orchestrator that touches `coherenceLevel` after
creation. -/
def applySelections (ops : List (PerfMap × List StrategyName × ℚ))
    (state : CognitiveReasoningState) : CognitiveReasoningState :=
  ops.foldl (fun st op => (cognitiveSelectStrategy op.1 st op.2.1 op.2.2).2) state

/-! ## Theorems -/

/-- Helper: a list sum of squares is non-negative. -/
theorem sum_sq_div_nonneg (l : List ℚ) (a n : ℚ) (hn : 0 ≤ n) :
    0 ≤ (l.map (fun c => (c - a) ^ 2)).sum / n := by
  apply div_nonneg _ hn
  apply List.sum_nonneg
  intro x hx
  obtain ⟨c, _, rfl⟩ := List.mem_map.1 hx
  positivity

/-- **C5, counterexample.**  On the two-step chain with confidences `0`
and `1` (one evidence each, no cognitive state) — all hypotheses of the
claim hold — the evaluator yields `conclusionStability = 3/2` and
`overallConvergence = 41/40`, so not all five values lie in `[0,1]`. -/
theorem convergence_bounds_counterexample :
    (∀ s ∈ chainC5.steps, 0 ≤ s.confidence ∧ s.confidence ≤ 1) ∧
    chainC5.cognitiveState = none ∧
    (calculateConvergenceMetrics chainC5).conclusionStability = 3 / 2 ∧
    (calculateConvergenceMetrics chainC5).overallConvergence = 41 / 40 ∧
    ¬ ((calculateConvergenceMetrics chainC5).conclusionStability ≤ 1 ∧
       (calculateConvergenceMetrics chainC5).overallConvergence ≤ 1) := by
  have h1 : (calculateConvergenceMetrics chainC5).conclusionStability = 3 / 2 := by
    simp only [calculateConvergenceMetrics, chainC5, freshReasoningChain, sampleStep,
      sampleEvidence]
    norm_num
  have h2 : (calculateConvergenceMetrics chainC5).overallConvergence = 41 / 40 := by
    simp only [calculateConvergenceMetrics, chainC5, freshReasoningChain, sampleStep,
      sampleEvidence]
    norm_num
  refine ⟨by decide, rfl, h1, h2, ?_⟩
  rw [h1, h2]
  norm_num

/-- **C5** (amended).  For every chain whose step confidences lie in
`[0,1]` and whose cognitive-state coherence lies in `[0,1]`,
`cognitiveCoherence`, `strategicAlignment` and `evidenceConsistency`
lie in `[0,1]`; `conclusionStability` lies in `[0, 3/2]` and
`overallConvergence` in `[0, 11/10]` (the claimed upper bound `1` for
the last two is refuted by `convergence_bounds_counterexample`). -/
theorem convergence_metrics_bounds (chain : ReasoningChain)
    (hconf : ∀ s ∈ chain.steps, 0 ≤ s.confidence ∧ s.confidence ≤ 1)
    (hcoh : ∀ st, chain.cognitiveState = some st →
      0 ≤ st.coherenceLevel ∧ st.coherenceLevel ≤ 1) :
    (0 ≤ (calculateConvergenceMetrics chain).cognitiveCoherence ∧
      (calculateConvergenceMetrics chain).cognitiveCoherence ≤ 1) ∧
    (0 ≤ (calculateConvergenceMetrics chain).strategicAlignment ∧
      (calculateConvergenceMetrics chain).strategicAlignment ≤ 1) ∧
    (0 ≤ (calculateConvergenceMetrics chain).evidenceConsistency ∧
      (calculateConvergenceMetrics chain).evidenceConsistency ≤ 1) ∧
    (0 ≤ (calculateConvergenceMetrics chain).conclusionStability ∧
      (calculateConvergenceMetrics chain).conclusionStability ≤ 3 / 2) ∧
    (0 ≤ (calculateConvergenceMetrics chain).overallConvergence ∧
      (calculateConvergenceMetrics chain).overallConvergence ≤ 11 / 10) := by
  cases h : chain.steps with
  | nil =>
      simp only [calculateConvergenceMetrics, h]
      norm_num
  | cons s0 rest =>
      have hC : 0 ≤ (calculateConvergenceMetrics chain).cognitiveCoherence ∧
          (calculateConvergenceMetrics chain).cognitiveCoherence ≤ 1 := by
        simp only [calculateConvergenceMetrics, h]
        cases hcs : chain.cognitiveState with
        | none => norm_num
        | some st =>
            have := hcoh st hcs
            simp only [jsOr]
            split_ifs with h0
            · norm_num
            · exact this
      have hvar : 0 ≤ (((s0 :: rest).map (·.confidence)).map
          (fun c => (c - ((s0 :: rest).map (·.confidence)).sum /
            (((s0 :: rest).map (·.confidence)).length : ℚ)) ^ 2)).sum /
          (((s0 :: rest).map (·.confidence)).length : ℚ) := by
        apply sum_sq_div_nonneg
        positivity
      have hA : 0 ≤ (calculateConvergenceMetrics chain).strategicAlignment ∧
          (calculateConvergenceMetrics chain).strategicAlignment ≤ 1 := by
        simp only [calculateConvergenceMetrics, h]
        constructor
        · exact le_max_left _ _
        · exact max_le (by norm_num) (by linarith)
      have hE : 0 ≤ (calculateConvergenceMetrics chain).evidenceConsistency ∧
          (calculateConvergenceMetrics chain).evidenceConsistency ≤ 1 := by
        simp only [calculateConvergenceMetrics, h]
        split_ifs with hev
        · constructor
          · apply le_min (by norm_num)
            positivity
          · exact min_le_left _ _
        · norm_num
      have hS : 0 ≤ (calculateConvergenceMetrics chain).conclusionStability ∧
          (calculateConvergenceMetrics chain).conclusionStability ≤ 3 / 2 := by
        simp only [calculateConvergenceMetrics, h]
        split_ifs with hlen
        · constructor
          · exact le_max_left _ _
          · apply max_le (by norm_num)
            have hlast : rest.getLastD s0 ∈ s0 :: rest := List.getLastD_mem_cons rest s0
            have h1 := hconf (rest.getLastD s0) (h ▸ hlast)
            have h2 := hconf s0 (h ▸ List.mem_cons_self s0 rest)
            linarith [h1.2, h2.1]
        · norm_num
      refine ⟨hC, hA, hE, hS, ?_, ?_⟩
      · simp only [calculateConvergenceMetrics, h] at hC hA hE hS ⊢
        nlinarith [hC.1, hA.1, hE.1, hS.1]
      · simp only [calculateConvergenceMetrics, h] at hC hA hE hS ⊢
        nlinarith [hC.1, hC.2, hA.1, hA.2, hE.1, hE.2, hS.1, hS.2]

/-- **C5, witness.**  The bounds theorem applied to the concrete
two-step chain. -/
theorem convergence_metrics_bounds_witness :
    (0 ≤ (calculateConvergenceMetrics chainC5).overallConvergence ∧
      (calculateConvergenceMetrics chainC5).overallConvergence ≤ 11 / 10) := by
  exact (convergence_metrics_bounds chainC5 (by decide)
    (fun st h => Option.noConfusion h)).2.2.2.2

/-- **C1, counterexample.**  With initialization done (fresh chain, no
cognitive state) and the always-throwing strategy `"Boom"` as the only
selected strategy, `_executeReasoningSteps` does **not** catch the
exception: the run is `.error "boom"` and in particular is not a normal
return with zero steps and `convergenceAchieved = false`. -/
theorem strategy_error_aborts_counterexample :
    executeReasoningSteps boomRegistry randsZero ["Boom"] none defaultReasoningConfig
      (freshReasoningChain "c" "g") perfNone = .error "boom" ∧
    ∀ res : ExecResult,
      executeReasoningSteps boomRegistry randsZero ["Boom"] none defaultReasoningConfig
        (freshReasoningChain "c" "g") perfNone ≠ .ok res := by
  have h0 : executeReasoningSteps boomRegistry randsZero ["Boom"] none defaultReasoningConfig
      (freshReasoningChain "c" "g") perfNone = .error "boom" := rfl
  exact ⟨h0, fun res h => by rw [h0] at h; exact Except.noConfusion h⟩

/-- **C1** (amended).  The step loop of `_executeReasoningSteps` has no
try/catch: whenever the first selection (round-robin, no cognitive
state) resolves to a registered strategy whose `executeStep` throws on
the current chain, the whole loop returns that error — a strategy
failure aborts the chain instead of being recovered. -/
theorem strategy_error_aborts (registry : StrategyRegistry) (rands : ℕ → ℚ)
    (selected : List StrategyName) (callerTarget : Option ℚ) (cfg : ReasoningConfig)
    (chain : ReasoningChain) (perf : PerfMap) (nm : StrategyName) (f : StrategyFn) (e : Err)
    (hcog : chain.cognitiveState = none)
    (hhead : selected.head? = some nm)
    (hreg : registry nm = some f)
    (hthrow : f chain = .error e) :
    executeReasoningSteps registry rands selected callerTarget cfg chain perf = .error e := by
  obtain ⟨a, rest, rfl⟩ : ∃ a rest, selected = a :: rest := by
    cases selected with
    | nil => simp at hhead
    | cons a rest => exact ⟨a, rest, rfl⟩
  have ha : a = nm := by simpa using hhead
  subst ha
  obtain ⟨k, hk⟩ : ∃ k, effectiveMaxSteps cfg = k + 1 := by
    unfold effectiveMaxSteps
    split_ifs with h0
    · exact ⟨9, rfl⟩
    · exact ⟨cfg.maxStepsPerChain - 1, by omega⟩
  unfold executeReasoningSteps
  rw [hk]
  simp only [execStepsAux, iterationSelection, hcog, roundRobinSelect, List.length_cons,
    Nat.zero_mod, List.get?_cons_zero, hreg, hthrow]

/-- **C1, amended witness.**  The abort theorem applied to the concrete
`"Boom"` setup (with a step cap of `3`). -/
theorem strategy_error_aborts_witness :
    executeReasoningSteps boomRegistry randsZero ["Boom"] none
      (mkReasoningConfig none none none (some 3)) (freshReasoningChain "w1" "g")
      perfNone = .error "boom" :=
  strategy_error_aborts boomRegistry randsZero ["Boom"] none
    (mkReasoningConfig none none none (some 3)) (freshReasoningChain "w1" "g")
    perfNone "Boom" (fun _ => .error "boom") "boom" rfl rfl rfl rfl

/-- Helper: inverting `bumpSelections` on an `.ok` outcome. -/
theorem bumpSelections_eq_ok {r : Except Err ExecResult} {res : ExecResult}
    (h : bumpSelections r = .ok res) :
    ∃ res', r = .ok res' ∧ res = { res' with selections := res'.selections + 1 } := by
  cases r with
  | error e => simp [bumpSelections, Except.map] at h
  | ok res' =>
      refine ⟨res', rfl, ?_⟩
      simpa [bumpSelections, Except.map, eq_comm] using h

/-- Helper: the selection step never touches the chain's step list. -/
theorem iterationSelection_steps (perf : PerfMap) (selected : List StrategyName)
    (r : ℚ) (i : ℕ) (chain : ReasoningChain) :
    (iterationSelection perf selected r i chain).2.steps = chain.steps := by
  unfold iterationSelection
  rcases chain.cognitiveState with _ | cs <;> rfl

/-- Helper: every normally-returning run of the step loop performs at
most `fuel` selections, appends at most `fuel` steps and counts at most
`fuel` additional executed steps. -/
theorem execStepsAux_bounds (registry : StrategyRegistry) (rands : ℕ → ℚ)
    (selected : List StrategyName) (target : ℚ) :
    ∀ fuel i chain perf k res,
      execStepsAux registry rands selected target i fuel chain perf k = .ok res →
      res.selections ≤ fuel ∧ res.chain.steps.length ≤ chain.steps.length + fuel ∧
        res.stepsExecuted ≤ k + fuel := by
  intro fuel
  induction fuel with
  | zero =>
      intro i chain perf k res h
      simp only [execStepsAux, Except.ok.injEq] at h
      subst h
      simp
  | succ n ih =>
      intro i chain perf k res h
      have hsteps := iterationSelection_steps perf selected (rands i) i chain
      simp only [execStepsAux] at h
      rcases hsel : iterationSelection perf selected (rands i) i chain with ⟨nameOpt, chain1⟩
      rw [hsel] at h hsteps
      dsimp only at h hsteps
      cases nameOpt with
      | none =>
          dsimp only at h
          obtain ⟨res', hr, hres⟩ := bumpSelections_eq_ok h
          obtain ⟨h1, h2, h3⟩ := ih (i + 1) chain1 perf k res' hr
          subst hres
          refine ⟨by simpa using Nat.succ_le_succ h1, ?_, by simpa using Nat.le_succ_of_le h3⟩
          simp only [hsteps] at h2
          exact h2.trans (by omega)
      | some nm =>
          dsimp only at h
          rcases hlook : registry nm with _ | strategy
          · rw [hlook] at h
            dsimp only at h
            obtain ⟨res', hr, hres⟩ := bumpSelections_eq_ok h
            obtain ⟨h1, h2, h3⟩ := ih (i + 1) chain1 perf k res' hr
            subst hres
            refine ⟨by simpa using Nat.succ_le_succ h1, ?_, by simpa using Nat.le_succ_of_le h3⟩
            simp only [hsteps] at h2
            exact h2.trans (by omega)
          · rw [hlook] at h
            dsimp only at h
            rcases hexec : strategy chain1 with e | step
            · rw [hexec] at h
              exact absurd h (by simp)
            · rw [hexec] at h
              dsimp only at h
              split_ifs at h with hconv
              · simp only [Except.ok.injEq] at h
                subst h
                simp [hsteps]
              · obtain ⟨res', hr, hres⟩ := bumpSelections_eq_ok h
                obtain ⟨h1, h2, h3⟩ := ih (i + 1) _ _ _ res' hr
                subst hres
                refine ⟨by simpa using Nat.succ_le_succ h1, ?_, by simpa using h3.trans (by omega)⟩
                simp only [List.length_append, List.length_cons, List.length_nil, hsteps] at h2 ⊢
                omega

/-- **C2.**  Any normally-returning invocation of the step loop performs
at most `maxStepsPerChain` strategy selections, appends at most that
many steps to the chain, and executes at most that many steps — and the
default `maxStepsPerChain` is `10` (both in the constructor and as the
loop's `|| 10` fallback). -/
theorem step_loop_bounded (registry : StrategyRegistry) (rands : ℕ → ℚ)
    (selected : List StrategyName) (callerTarget : Option ℚ) (cfg : ReasoningConfig)
    (chain : ReasoningChain) (perf : PerfMap) (res : ExecResult)
    (h : executeReasoningSteps registry rands selected callerTarget cfg chain perf = .ok res) :
    (res.selections ≤ effectiveMaxSteps cfg ∧
      res.chain.steps.length ≤ chain.steps.length + effectiveMaxSteps cfg ∧
      res.stepsExecuted ≤ effectiveMaxSteps cfg) ∧
    (mkReasoningConfig none none none none).maxStepsPerChain = 10 ∧
    effectiveMaxSteps defaultReasoningConfig = 10 := by
  refine ⟨?_, rfl, rfl⟩
  have := execStepsAux_bounds registry rands selected
    (resolveConvergenceTarget callerTarget cfg.convergenceTarget)
    (effectiveMaxSteps cfg) 0 chain perf 0 res h
  simpa using this

/-- **C2, witness.**  The bound applied to a concrete run: with an empty
selected-strategy list every iteration skips, so the default-configured
loop returns normally after exactly `10` selections and `0` steps. -/
theorem step_loop_bounded_witness :
    ∃ res : ExecResult,
      executeReasoningSteps steadyRegistry randsZero [] none defaultReasoningConfig
        (freshReasoningChain "w2" "g") perfNone = .ok res ∧
      res.selections ≤ effectiveMaxSteps defaultReasoningConfig ∧
      res.chain.steps.length ≤
        (freshReasoningChain "w2" "g").steps.length + effectiveMaxSteps defaultReasoningConfig := by
  refine ⟨{ chain := freshReasoningChain "w2" "g", perf := perfNone, stepsExecuted := 0
            convergenceAchieved := false, selections := 10 }, rfl, ?_, ?_⟩
  · exact (step_loop_bounded steadyRegistry randsZero [] none defaultReasoningConfig
      (freshReasoningChain "w2" "g") perfNone _ rfl).1.1
  · exact (step_loop_bounded steadyRegistry randsZero [] none defaultReasoningConfig
      (freshReasoningChain "w2" "g") perfNone _ rfl).1.2.1

/-- **C6, counterexample.**  With no caller-supplied target (and a step
cap of `2` to keep the run small), a chain of steady steps reaches
`overallConvergence = 9/10 ≥ 0.85` already after the first step, yet the
loop does **not** stop there: the target in force is the config default
`0.99`, so the run performs `2` selections and ends with
`convergenceAchieved = false` — refuting the claimed default of `0.85`. -/
theorem default_target_counterexample :
    (85 : ℚ) / 100 ≤ (calculateConvergenceMetrics { freshReasoningChain "c" "g" with
      steps := [sampleStep "s" (1 / 2) "steady" [] [sampleEvidence "e"]] }).overallConvergence ∧
    resolveConvergenceTarget none
      (mkReasoningConfig none none none (some 2)).convergenceTarget = 99 / 100 ∧
    (executeReasoningSteps steadyRegistry randsZero ["Steady"] none
        (mkReasoningConfig none none none (some 2)) (freshReasoningChain "c" "g") perfNone).map
      (fun r => (r.selections, r.convergenceAchieved, r.chain.steps.length)) =
      .ok (2, false, 2) := by
  refine ⟨?_, ?_, ?_⟩
  · simp only [calculateConvergenceMetrics, freshReasoningChain, sampleStep, sampleEvidence]
    norm_num
  · simp only [resolveConvergenceTarget, mkReasoningConfig, jsOr, Option.getD]
    norm_num
  · simp only [executeReasoningSteps, effectiveMaxSteps, mkReasoningConfig,
      resolveConvergenceTarget, jsOr, Option.getD]
    norm_num [execStepsAux, iterationSelection, roundRobinSelect, steadyRegistry,
      freshReasoningChain, perfNone, sampleStep, sampleEvidence, updatePerformanceMetrics,
      calculateConvergenceMetrics, bumpSelections, Except.map]

/-- **C6** (amended).  The step loop stops as soon as the freshly
recomputed `overallConvergence` reaches the resolved target; but the
target used when the caller supplies none is the configured
`reasoning.convergenceTarget` — `0.99` by default — and the claimed
`0.85` is only the last-resort fallback when that config value is `0`.
A caller-supplied nonzero target is honoured as claimed. -/
theorem convergence_stop_and_target :
    resolveConvergenceTarget none defaultReasoningConfig.convergenceTarget = 99 / 100 ∧
    (∀ t c : ℚ, t ≠ 0 → resolveConvergenceTarget (some t) c = t) ∧
    (∀ (registry : StrategyRegistry) (rands : ℕ → ℚ) (selected : List StrategyName)
       (target : ℚ) (fuel : ℕ) (chain : ReasoningChain) (perf : PerfMap) (k : ℕ)
       (nm : StrategyName) (f : StrategyFn) (step : ReasoningStep),
      chain.cognitiveState = none → selected.head? = some nm →
      registry nm = some f → f chain = .ok step →
      target ≤ (calculateConvergenceMetrics
        { chain with steps := chain.steps ++ [step] }).overallConvergence →
      execStepsAux registry rands selected target 0 (fuel + 1) chain perf k =
        .ok { chain := { chain with
                  steps := chain.steps ++ [step]
                  convergenceScore := (calculateConvergenceMetrics
                    { chain with steps := chain.steps ++ [step] }).overallConvergence }
              perf := updatePerformanceMetrics perf nm step
              stepsExecuted := k + 1
              convergenceAchieved := true
              selections := 1 }) := by
  refine ⟨?_, ?_, ?_⟩
  · simp only [resolveConvergenceTarget, defaultReasoningConfig, mkReasoningConfig, jsOr,
      Option.getD]
    norm_num
  · intro t c ht
    simp [resolveConvergenceTarget, jsOr, ht]
  · intro registry rands selected target fuel chain perf k nm f step
      hcog hhead hreg hexec htar
    obtain ⟨a, rest, rfl⟩ : ∃ a rest, selected = a :: rest := by
      cases selected with
      | nil => simp at hhead
      | cons a rest => exact ⟨a, rest, rfl⟩
    have ha : a = nm := by simpa using hhead
    subst ha
    rw [hcog] at htar
    simp only [execStepsAux, iterationSelection, hcog, roundRobinSelect, List.length_cons,
      Nat.zero_mod, List.get?_cons_zero, hreg, hexec]
    rw [if_pos htar]

/-- **C6, amended witness.**  The stop theorem applied to the concrete
steady strategy with the caller-supplied nonzero target `1/2`: one step
reaches convergence `9/10 ≥ 1/2`, so the loop stops after exactly one
selection with `convergenceAchieved = true`. -/
theorem convergence_stop_witness :
    execStepsAux steadyRegistry randsZero ["Steady"] (1 / 2) 0 (9 + 1)
      (freshReasoningChain "w6" "g") perfNone 0 =
      .ok { chain := { freshReasoningChain "w6" "g" with
                steps := (freshReasoningChain "w6" "g").steps ++
                  [sampleStep "s" (1 / 2) "steady" [] [sampleEvidence "e"]]
                convergenceScore := (calculateConvergenceMetrics
                  { freshReasoningChain "w6" "g" with
                      steps := (freshReasoningChain "w6" "g").steps ++
                        [sampleStep "s" (1 / 2) "steady" [] [sampleEvidence "e"]] }).overallConvergence }
            perf := updatePerformanceMetrics perfNone "Steady"
              (sampleStep "s" (1 / 2) "steady" [] [sampleEvidence "e"])
            stepsExecuted := 0 + 1
            convergenceAchieved := true
            selections := 1 } := by
  refine convergence_stop_and_target.2.2 steadyRegistry randsZero ["Steady"] (1 / 2) 9
    (freshReasoningChain "w6" "g") perfNone 0 "Steady"
    (fun _ => .ok (sampleStep "s" (1 / 2) "steady" [] [sampleEvidence "e"]))
    (sampleStep "s" (1 / 2) "steady" [] [sampleEvidence "e"]) rfl rfl rfl rfl ?_
  simp only [calculateConvergenceMetrics, freshReasoningChain, sampleStep, sampleEvidence,
    List.nil_append]
  norm_num

/-- **C7, counterexample.**  `"Abductive"` right after initialization:
the tracker holds `initPerfRecord` (zero executions — no execution
history — but `averageConfidence = 0`, `successRate = 1`).  The
selector's computed weight is `1·(0·1) = 0`, not the claimed
`1·0.5 = 1/2`. -/
theorem selection_weight_counterexample :
    perfC7 "Abductive" = some initPerfRecord ∧
    initPerfRecord.totalExecutions = 0 ∧
    cognitiveSelectionWeights perfC7 stateC7 ["Abductive"] = [0] ∧
    claimedSelectionWeights perfC7 stateC7 ["Abductive"] = [1 / 2] ∧
    cognitiveSelectionWeights perfC7 stateC7 ["Abductive"] ≠
      claimedSelectionWeights perfC7 stateC7 ["Abductive"] := by
  refine ⟨rfl, rfl, ?_, ?_, ?_⟩
  · simp only [cognitiveSelectionWeights, stateC7, perfC7, selectionProbAt, initPerfRecord,
      List.enum, List.enumFrom, List.map, List.length_cons, List.length_nil]
    norm_num
  · simp only [claimedSelectionWeights, claimedPerformanceWeight, stateC7, perfC7,
      selectionProbAt, initPerfRecord, List.enum, List.enumFrom, List.map, List.length_cons,
      List.length_nil]
    norm_num
  · intro hcontra
    have h0 : cognitiveSelectionWeights perfC7 stateC7 ["Abductive"] = [0] := by
      simp only [cognitiveSelectionWeights, stateC7, perfC7, selectionProbAt, initPerfRecord,
        List.enum, List.enumFrom, List.map, List.length_cons, List.length_nil]
      norm_num
    have h1 : claimedSelectionWeights perfC7 stateC7 ["Abductive"] = [1 / 2] := by
      simp only [claimedSelectionWeights, claimedPerformanceWeight, stateC7, perfC7,
        selectionProbAt, initPerfRecord, List.enum, List.enumFrom, List.map, List.length_cons,
        List.length_nil]
      norm_num
    rw [h0, h1] at hcontra
    simp only [List.cons.injEq] at hcontra
    exact absurd hcontra.1 (by norm_num)

/-- **C7** (amended).  `cognitiveSelectStrategy` increments the state's
`measurementCount` by exactly `1`, multiplies its `coherenceLevel` by
exactly `0.95` (amplitudes unchanged), draws the index with
`weightedRandomSelection` over the weight list, falls back to the first
available strategy, and the `i`-th weight is
`(amplitude[i mod len].confidence² + potential²) ·
(averageConfidence · successRate)` when the tracker has a record for
that strategy and `· 0.5` only when it has **none** (so a registered but
never-executed strategy weighs `0`, not `0.5`). -/
theorem cognitive_select_characterization (perf : PerfMap)
    (state : CognitiveReasoningState) (avail : List StrategyName) (r : ℚ) :
    (cognitiveSelectStrategy perf state avail r).2.measurementCount =
      state.measurementCount + 1 ∧
    (cognitiveSelectStrategy perf state avail r).2.coherenceLevel =
      state.coherenceLevel * (95 / 100) ∧
    (cognitiveSelectStrategy perf state avail r).2.conceptualAmplitude =
      state.conceptualAmplitude ∧
    (cognitiveSelectStrategy perf state avail r).1 =
      jsOrStr (avail.get? (weightedRandomSelection r
        (cognitiveSelectionWeights perf state avail))) (avail.get? 0) ∧
    ∀ i, (h : i < avail.length) →
      (cognitiveSelectionWeights perf state avail)[i]? =
        some (selectionProbAt (state.conceptualAmplitude.map
            (fun amp => amp.confidence * amp.confidence + amp.potential * amp.potential)) i *
          (match perf avail[i] with
           | some m => m.averageConfidence * m.successRate
           | none => 1 / 2)) := by
  refine ⟨rfl, rfl, rfl, rfl, ?_⟩
  intro i h
  simp only [cognitiveSelectionWeights, List.getElem?_map, List.getElem?_enum,
    List.getElem?_eq_getElem h, Option.map_some]
  rfl

/-- **C7, amended witness.**  The characterization applied to the
freshly-initialized `"Abductive"` setup at index `0`. -/
theorem cognitive_select_characterization_witness :
    (cognitiveSelectStrategy perfC7 stateC7 ["Abductive"] 0).2.measurementCount =
      stateC7.measurementCount + 1 ∧
    (cognitiveSelectionWeights perfC7 stateC7 ["Abductive"])[0]? =
      some (selectionProbAt (stateC7.conceptualAmplitude.map
          (fun amp => amp.confidence * amp.confidence + amp.potential * amp.potential)) 0 *
        (match perfC7 (["Abductive"] : List StrategyName)[0] with
         | some m => m.averageConfidence * m.successRate
         | none => 1 / 2)) := by
  refine ⟨(cognitive_select_characterization perfC7 stateC7 ["Abductive"] 0).1, ?_⟩
  exact (cognitive_select_characterization perfC7 stateC7 ["Abductive"] 0).2.2.2.2 0
    (by norm_num)

/-- Helper: the cumulative scan only ever reports an in-range index. -/
theorem cumFindIndex_lt (random : ℚ) :
    ∀ (c : ℚ) (l : List ℚ) (i : ℕ), cumFindIndex random c l = some i → i < l.length := by
  intro c l
  induction l generalizing c with
  | nil => intro i h; simp [cumFindIndex] at h
  | cons p rest ih =>
      intro i h
      simp only [cumFindIndex] at h
      split_ifs at h with hle
      · simp only [Option.some.injEq] at h
        subst h
        simp
      · simp only [Option.map_eq_some'] at h
        obtain ⟨j, hj, rfl⟩ := h
        have := ih (c + p) j hj
        simp only [List.length_cons]
        omega

/-- **C10.**  For every non-empty list of non-negative weights and every
draw `0 ≤ r < 1`, `weightedRandomSelection` returns an index strictly
below the list length; and when every weight is zero it takes the
uniform fallback `Math.floor(r * length)`. -/
theorem weighted_selection_in_range (r : ℚ) (probabilities : List ℚ)
    (hne : probabilities ≠ []) (hnn : ∀ p ∈ probabilities, 0 ≤ p)
    (hr0 : 0 ≤ r) (hr1 : r < 1) :
    weightedRandomSelection r probabilities < probabilities.length ∧
    ((∀ p ∈ probabilities, p = 0) →
      weightedRandomSelection r probabilities =
        (⌊r * (probabilities.length : ℚ)⌋).toNat) := by
  have hlen : 0 < probabilities.length := List.length_pos.2 hne
  constructor
  · simp only [weightedRandomSelection]
    split_ifs with htot
    · have hnq : (0 : ℚ) < (probabilities.length : ℚ) := by exact_mod_cast hlen
      have hmul : r * (probabilities.length : ℚ) < (probabilities.length : ℚ) := by
        calc r * (probabilities.length : ℚ) < 1 * (probabilities.length : ℚ) :=
              mul_lt_mul_of_pos_right hr1 hnq
          _ = (probabilities.length : ℚ) := one_mul _
      have hfloor : ⌊r * (probabilities.length : ℚ)⌋ < (probabilities.length : ℤ) := by
        rw [Int.floor_lt]
        exact_mod_cast hmul
      have h0 : 0 ≤ ⌊r * (probabilities.length : ℚ)⌋ :=
        Int.floor_nonneg.2 (by positivity)
      omega
    · rcases hfind : cumFindIndex (r * probabilities.sum) 0 probabilities with _ | i
      · simp only [hfind, Option.getD]
        omega
      · simp only [hfind, Option.getD]
        exact cumFindIndex_lt _ _ _ _ hfind
  · intro hzero
    have htot : probabilities.sum = 0 := List.sum_eq_zero hzero
    simp [weightedRandomSelection, htot]

/-- **C10, witness.**  The range theorem applied to the all-zero weight
list `[0, 0, 0]` with draw `1/2`: the fallback picks index
`⌊(1/2)·3⌋ = 1`, inside `[0, 2]`. -/
theorem weighted_selection_in_range_witness :
    weightedRandomSelection (1 / 2) [0, 0, 0] < 3 ∧
    weightedRandomSelection (1 / 2) [0, 0, 0] = (⌊(1 / 2 : ℚ) * 3⌋).toNat := by
  have h := weighted_selection_in_range (1 / 2) [0, 0, 0] (by decide)
    (by intro p hp; fin_cases hp <;> norm_num) (by norm_num) (by norm_num)
  refine ⟨h.1, ?_⟩
  have h2 := h.2 (by intro p hp; fin_cases hp <;> rfl)
  simpa using h2

/-- Helper: indices before `indexOf a` do not hold `a`. -/
theorem get?_ne_of_lt_indexOf {α : Type} [DecidableEq α] :
    ∀ (l : List α) (a : α) (k : ℕ), k < l.indexOf a → l.get? k ≠ some a := by
  intro l a
  induction l with
  | nil => intro k hk h; simp at h
  | cons x xs ih =>
      intro k hk
      by_cases hxa : x = a
      · subst hxa
        rw [List.indexOf_cons_self] at hk
        omega
      · rw [List.indexOf_cons_ne _ hxa] at hk
        cases k with
        | zero => simp [hxa]
        | succ k' =>
            simp only [List.get?_cons_succ]
            exact ih k' (by omega)

/-- **C3, counterexample.**  On `stateC3` (weights `(1,2)` and `(1,3)`,
equal `confidence`, different `potential`), the claim's rule — argmax of
`confidence² + potential²` — picks index `1` (concept `"b"`), but the
code resolves `"a"`: `_resolveCognitiveState` squares only the
`confidence` component. -/
theorem resolve_highest_counterexample :
    (resolveCognitiveState stateC3 .highestConfidence 0).map
      (fun p => (p.1.resolvedConcept, p.2.resolutionCount)) = .ok ("a", 1) ∧
    claimedHighestConfidenceIndex stateC3.hypothesisWeights = 1 ∧
    stateC3.concepts.get? 1 = some "b" ∧ "a" ≠ "b" := by
  have hprobs : stateC3.hypothesisWeights.map (fun w => w.confidence * w.confidence) =
      [1, 1] := by
    norm_num [stateC3]
  have hmax : List.max? [(1 : ℚ), 1] = some 1 := by
    simp [List.max?_cons']
  have hmags : stateC3.hypothesisWeights.map
      (fun w => w.confidence * w.confidence + w.potential * w.potential) = [5, 10] := by
    norm_num [stateC3]
  have hmax2 : List.max? [(5 : ℚ), 10] = some 10 := by
    simp only [List.max?_cons', List.foldl_cons, List.foldl_nil, max_def]
    norm_num
  have hidx : List.indexOf (10 : ℚ) [5, 10] = 1 := by
    rw [List.indexOf_cons_ne _ (by norm_num : (5 : ℚ) ≠ 10), List.indexOf_cons_self]
  refine ⟨?_, ?_, rfl, by decide⟩
  · simp only [resolveCognitiveState, resolveSelectedIndex, hprobs, hmax,
      List.indexOf_cons_self]
    norm_num [stateC3, Except.map]
  · simp only [claimedHighestConfidenceIndex, hmags, hmax2, hidx]
    norm_num

/-- **C3** (amended).  On any state with a non-empty weight list (and at
least as many concepts), `highest_confidence` resolution succeeds and
picks the **lowest** index maximizing `confidence²` — the `potential`
component is ignored, unlike the claim's `confidence² + potential²` —
and as side effects multiplies the coherence by exactly `0.9` and
increments the resolution count by exactly `1`. -/
theorem resolve_highest_characterization {α : Type} [LinearOrderedField α] [DecidableEq α]
    (state : CognitiveSuperpositionState α) (r : α)
    (hw : state.hypothesisWeights ≠ [])
    (hlen : state.hypothesisWeights.length ≤ state.concepts.length) :
    ∃ (res : CognitiveResolutionResult α) (st' : CognitiveSuperpositionState α)
      (j : ℕ) (m : α),
      resolveCognitiveState state .highestConfidence r = .ok (res, st') ∧
      (state.hypothesisWeights.map (fun w => w.confidence * w.confidence)).get? j = some m ∧
      (∀ v ∈ state.hypothesisWeights.map (fun w => w.confidence * w.confidence), v ≤ m) ∧
      (∀ k, k < j →
        (state.hypothesisWeights.map (fun w => w.confidence * w.confidence)).get? k ≠ some m) ∧
      state.concepts.get? j = some res.resolvedConcept ∧
      res.confidence = m ∧
      st'.coherence = state.coherence * (9 / 10) ∧
      st'.resolutionCount = state.resolutionCount + 1 ∧
      res.postResolutionCoherence = state.coherence * (9 / 10) := by
  classical
  set probs := state.hypothesisWeights.map (fun w => w.confidence * w.confidence) with hprobs
  have hne : probs ≠ [] := by
    rw [hprobs]
    intro h
    exact hw (List.map_eq_nil_iff.1 h)
  rcases hm : probs.max? with _ | m
  · exact absurd (List.max?_eq_none_iff.1 hm) hne
  have hmem : m ∈ probs := List.max?_mem max_choice hm
  have hle : ∀ b ∈ probs, b ≤ m :=
    fun b hb => ((List.max?_le_iff (fun _ _ _ => max_le_iff) hm).1 (le_refl m)) b hb
  have hj : probs.indexOf m < probs.length := List.indexOf_lt_length.2 hmem
  have hjw : probs.indexOf m < state.concepts.length := by
    have : probs.length = state.hypothesisWeights.length := by simp [hprobs]
    omega
  have hgetj : probs.get? (probs.indexOf m) = some m := by
    rw [List.get?_eq_get hj]
    exact congrArg some (List.indexOf_get hj)
  obtain ⟨c, hc⟩ : ∃ c, state.concepts.get? (probs.indexOf m) = some c := by
    rw [List.get?_eq_get hjw]
    exact ⟨_, rfl⟩
  have hnonneg : ¬ ((probs.indexOf m : ℤ) < 0) := by omega
  refine ⟨{ stateId := state.id, resolvedConcept := c, reasoningPath := [c],
            confidence := m, postResolutionCoherence := state.coherence * (9 / 10) },
          { state with resolutionCount := state.resolutionCount + 1,
                       coherence := state.coherence * (9 / 10) },
          probs.indexOf m, m, ?_, hgetj, hle,
          fun k hk => get?_ne_of_lt_indexOf probs m k hk, hc, rfl, rfl, rfl, rfl⟩
  simp only [resolveCognitiveState, resolveSelectedIndex, ← hprobs, hm]
  rw [if_neg hnonneg]
  simp only [Int.toNat_natCast, hc]
  rw [if_neg hnonneg]
  simp only [Int.toNat_natCast, hgetj, Option.getD_some]

/-- **C3, amended witness.**  The characterization applied to `stateC3`
(code's argmax of `confidence²` is index `0`, concept `"a"`). -/
theorem resolve_highest_characterization_witness :
    ∃ (res : CognitiveResolutionResult ℚ) (st' : CognitiveSuperpositionState ℚ)
      (j : ℕ) (m : ℚ),
      resolveCognitiveState stateC3 .highestConfidence 0 = .ok (res, st') ∧
      (stateC3.hypothesisWeights.map (fun w => w.confidence * w.confidence)).get? j = some m ∧
      (∀ v ∈ stateC3.hypothesisWeights.map (fun w => w.confidence * w.confidence), v ≤ m) ∧
      (∀ k, k < j →
        (stateC3.hypothesisWeights.map (fun w => w.confidence * w.confidence)).get? k ≠ some m) ∧
      stateC3.concepts.get? j = some res.resolvedConcept ∧
      res.confidence = m ∧
      st'.coherence = stateC3.coherence * (9 / 10) ∧
      st'.resolutionCount = stateC3.resolutionCount + 1 ∧
      res.postResolutionCoherence = stateC3.coherence * (9 / 10) :=
  resolve_highest_characterization stateC3 0 (by decide) (by decide)

/-- **C4.**  `_createCognitiveSuperposition` throws on an empty concept
list; for `n ≥ 1` concepts it returns a state with one weight per
concept, both components equal to `1/√n`, coherence exactly `1` and
resolution count `0`. -/
theorem create_superposition_spec :
    createCognitiveSuperpositionMCP [] =
      .error "Cannot create a cognitive superposition from an empty set of concepts." ∧
    (∀ concepts : List String, concepts ≠ [] →
      ∃ st : CognitiveSuperpositionState ℝ,
        createCognitiveSuperpositionMCP concepts = .ok st ∧
        st.hypothesisWeights.length = concepts.length ∧
        (∀ w ∈ st.hypothesisWeights,
          w.confidence = 1 / Real.sqrt (concepts.length : ℝ) ∧
          w.potential = 1 / Real.sqrt (concepts.length : ℝ)) ∧
        st.coherence = 1 ∧ st.resolutionCount = 0 ∧ st.concepts = concepts) := by
  constructor
  · rfl
  · intro concepts hne
    have h : createCognitiveSuperpositionMCP concepts = .ok
        { id := "cogstate", concepts := concepts
          hypothesisWeights := concepts.map (fun _ =>
            { confidence := 1 / Real.sqrt (concepts.length : ℝ)
              potential := 1 / Real.sqrt (concepts.length : ℝ) })
          coherence := 1, linkedStateIds := [], instabilityRate := 5 / 100
          resolutionCount := 0 } := by
      simp [createCognitiveSuperpositionMCP, hne]
    refine ⟨_, h, by simp, ?_, rfl, rfl, rfl⟩
    intro w hw
    simp only [List.mem_map] at hw
    obtain ⟨x, _, rfl⟩ := hw
    exact ⟨rfl, rfl⟩

/-- **C4, witness.**  The creation theorem applied to `["A", "B"]`:
both weight components are `1/√2`, coherence `1`, zero resolutions. -/
theorem create_superposition_spec_witness :
    ∃ st : CognitiveSuperpositionState ℝ,
      createCognitiveSuperpositionMCP ["A", "B"] = .ok st ∧
      st.hypothesisWeights.length = 2 ∧
      (∀ w ∈ st.hypothesisWeights,
        w.confidence = 1 / Real.sqrt 2 ∧ w.potential = 1 / Real.sqrt 2) ∧
      st.coherence = 1 ∧ st.resolutionCount = 0 := by
  obtain ⟨st, h1, h2, h3, h4, h5, _⟩ :=
    create_superposition_spec.2 ["A", "B"] (by decide)
  refine ⟨st, h1, by simpa using h2, ?_, h4, h5⟩
  intro w hw
  have hlen : ((["A", "B"] : List String).length : ℝ) = 2 := by norm_num
  have := h3 w hw
  rw [hlen] at this
  exact this

/-- Helper: the `reduce`-style best-step fold returns a member of the
list that no member's confidence exceeds (and keeps the earliest such
member, as the comparison is strict). -/
theorem foldl_best_spec (s0 : ReasoningStep) (rest : List ReasoningStep) :
    rest.foldl (fun best current =>
        if best.confidence < current.confidence then current else best) s0 ∈ s0 :: rest ∧
    ∀ s ∈ s0 :: rest, s.confidence ≤ (rest.foldl (fun best current =>
        if best.confidence < current.confidence then current else best) s0).confidence := by
  induction rest generalizing s0 with
  | nil =>
      refine ⟨List.mem_singleton.2 rfl, ?_⟩
      intro s hs
      rw [List.mem_singleton] at hs
      subst hs
      exact le_refl _
  | cons x xs ih =>
      simp only [List.foldl_cons]
      obtain ⟨hmem, hmax⟩ := ih (if s0.confidence < x.confidence then x else s0)
      constructor
      · rcases List.mem_cons.1 hmem with heq | hmem'
        · rw [heq]
          split_ifs
          · exact List.mem_cons_of_mem _ (List.mem_cons_self _ _)
          · exact List.mem_cons_self _ _
        · exact List.mem_cons_of_mem _ (List.mem_cons_of_mem _ hmem')
      · intro s hs
        have hbase := hmax _ (List.mem_cons_self _ _)
        rcases List.mem_cons.1 hs with heq | hs'
        · subst heq
          refine le_trans ?_ hbase
          split_ifs with hsx
          · exact le_of_lt hsx
          · exact le_refl _
        · rcases List.mem_cons.1 hs' with heq | hs''
          · subst heq
            refine le_trans ?_ hbase
            split_ifs with hsx
            · exact le_refl _
            · exact le_of_not_lt hsx
          · exact hmax _ (List.mem_cons_of_mem _ hs'')

/-- Helper: membership in the accumulator pass of `jsSetDedup`. -/
theorem mem_jsSetDedupAux :
    ∀ (l seen : List String) (x : String),
      x ∈ jsSetDedupAux seen l ↔ x ∈ l ∧ x ∉ seen := by
  intro l
  induction l with
  | nil => intro seen x; simp [jsSetDedupAux]
  | cons a as ih =>
      intro seen x
      simp only [jsSetDedupAux]
      split_ifs with ha
      · rw [ih]
        simp only [List.mem_cons]
        constructor
        · rintro ⟨hx, hns⟩
          exact ⟨Or.inr hx, hns⟩
        · rintro ⟨hax | hx, hns⟩
          · exact absurd (hax ▸ ha) hns
          · exact ⟨hx, hns⟩
      · simp only [List.mem_cons, ih]
        constructor
        · rintro (rfl | ⟨hx, hns⟩)
          · exact ⟨Or.inl rfl, ha⟩
          · exact ⟨Or.inr hx, fun hxs => hns (Or.inr hxs)⟩
        · rintro ⟨hax | hx, hns⟩
          · exact Or.inl hax
          · by_cases hxa : x = a
            · exact Or.inl hxa
            · refine Or.inr ⟨hx, ?_⟩
              rintro (h | h)
              · exact hxa h
              · exact hns h

/-- Helper: membership in `jsSetDedup` is membership in the original. -/
theorem mem_jsSetDedup (l : List String) (x : String) :
    x ∈ jsSetDedup l ↔ x ∈ l := by
  rw [jsSetDedup, mem_jsSetDedupAux]
  simp

/-- Helper: the accumulator pass of `jsSetDedup` is duplicate-free. -/
theorem jsSetDedupAux_nodup :
    ∀ (l seen : List String), (jsSetDedupAux seen l).Nodup := by
  intro l
  induction l with
  | nil => intro seen; simp [jsSetDedupAux]
  | cons a as ih =>
      intro seen
      simp only [jsSetDedupAux]
      split_ifs with ha
      · exact ih seen
      · refine List.nodup_cons.2 ⟨?_, ih (a :: seen)⟩
        intro hmem
        exact ((mem_jsSetDedupAux as (a :: seen) a).1 hmem).2 (List.mem_cons_self a seen)

/-- Helper: `jsSetDedup` is duplicate-free. -/
theorem jsSetDedup_nodup (l : List String) : (jsSetDedup l).Nodup :=
  jsSetDedupAux_nodup l []

/-- **C8, counterexample.**  On a one-step chain whose only conclusion
statement is `"X"`, the synthesized statement is
`"Unified reasoning conclusion: X"` — a prefixed version, not the
highest-confidence step's statement itself. -/
theorem synthesize_statement_counterexample :
    (synthesizeFinalConclusion chainC8).statement = "Unified reasoning conclusion: X" ∧
    (∀ s ∈ chainC8.steps, s.conclusion.statement = "X") ∧
    (synthesizeFinalConclusion chainC8).statement ≠ "X" ∧
    (synthesizeFinalConclusion chainC8).premises = ["p1", "p2"] := by
  exact ⟨rfl, by decide, by decide, rfl⟩

/-- **C8** (amended).  For every chain with at least one step the
synthesized conclusion's statement is the highest-confidence step's
statement **prefixed** with `"Unified reasoning conclusion: "`; its
premises are the first-occurrence deduplication of all step premise ids
(duplicate-free, with exactly the union as members); its confidence is
`min 1 (avgStepConfidence · 1.1)`; and it carries a final metrics
snapshot. -/
theorem synthesize_conclusion_characterization (chain : ReasoningChain)
    (hne : chain.steps ≠ []) :
    ∃ best ∈ chain.steps,
      (∀ s ∈ chain.steps, s.confidence ≤ best.confidence) ∧
      (synthesizeFinalConclusion chain).statement =
        "Unified reasoning conclusion: " ++ best.conclusion.statement ∧
      (synthesizeFinalConclusion chain).premises =
        jsSetDedup (chain.steps.flatMap (fun step => step.premises.map (·.id))) ∧
      (synthesizeFinalConclusion chain).premises.Nodup ∧
      (∀ pid, pid ∈ (synthesizeFinalConclusion chain).premises ↔
        ∃ s ∈ chain.steps, ∃ p ∈ s.premises, p.id = pid) ∧
      (synthesizeFinalConclusion chain).confidence =
        min 1 (((chain.steps.map (·.confidence)).sum / (chain.steps.length : ℚ)) * (11 / 10)) ∧
      (synthesizeFinalConclusion chain).convergenceMetrics =
        some (calculateConvergenceMetrics chain) := by
  rcases hsteps : chain.steps with _ | ⟨s0, rest⟩
  · exact absurd hsteps hne
  obtain ⟨hmem, hmax⟩ := foldl_best_spec s0 rest
  refine ⟨_, hmem, ?_, ?_, ?_, ?_, ?_, ?_, ?_⟩
  · intro s hs
    exact hmax s hs
  · simp only [synthesizeFinalConclusion, hsteps]
  · simp only [synthesizeFinalConclusion, hsteps]
  · simp only [synthesizeFinalConclusion, hsteps]
    exact jsSetDedup_nodup _
  · intro pid
    simp only [synthesizeFinalConclusion, hsteps, mem_jsSetDedup, List.mem_flatMap,
      List.mem_map]
  · simp only [synthesizeFinalConclusion, hsteps]
  · simp only [synthesizeFinalConclusion, hsteps]

/-- **C8, amended witness.**  The characterization applied to the
concrete one-step chain. -/
theorem synthesize_conclusion_characterization_witness :
    ∃ best ∈ chainC8.steps,
      (∀ s ∈ chainC8.steps, s.confidence ≤ best.confidence) ∧
      (synthesizeFinalConclusion chainC8).statement =
        "Unified reasoning conclusion: " ++ best.conclusion.statement ∧
      (synthesizeFinalConclusion chainC8).premises =
        jsSetDedup (chainC8.steps.flatMap (fun step => step.premises.map (·.id))) :=
  have h := synthesize_conclusion_characterization chainC8 (by decide)
  ⟨h.choose, h.choose_spec.1, h.choose_spec.2.1, h.choose_spec.2.2.1,
    h.choose_spec.2.2.2.1⟩

/-- Helper: folding selector measurements multiplies the coherence by
`0.95` once per measurement. -/
theorem applySelections_coherence :
    ∀ (ops : List (PerfMap × List StrategyName × ℚ)) (state : CognitiveReasoningState),
      (applySelections ops state).coherenceLevel =
        state.coherenceLevel * (95 / 100) ^ ops.length := by
  intro ops
  induction ops with
  | nil => intro state; simp [applySelections]
  | cons op rest ih =>
      intro state
      have h := ih ((cognitiveSelectStrategy op.1 state op.2.1 op.2.2).2)
      simp only [applySelections, List.foldl_cons] at h ⊢
      rw [h]
      simp only [cognitiveSelectStrategy, List.length_cons, pow_succ]
      ring

/-- **C9.**  Coherence starts at exactly `1` at creation (both the
orchestrator-side and the MCP-side state) and never increases: explicit
resolution multiplies it by exactly `0.9` and selector-driven
measurement by exactly `0.95`, each of which is non-increasing (and
keeps it non-negative) from any non-negative value; along any sequence
of measurements from creation it is exactly `0.95^k ≤ 1`. -/
theorem coherence_starts_one_and_decays :
    (∀ stateId concepts strategies amps rate,
      (createCognitiveSuperpositionOrch stateId concepts strategies amps
        rate).coherenceLevel = 1) ∧
    (∀ (concepts : List String) (st : CognitiveSuperpositionState ℝ),
      createCognitiveSuperpositionMCP concepts = .ok st → st.coherence = 1) ∧
    (∀ (perf : PerfMap) (state : CognitiveReasoningState) (avail : List StrategyName)
       (r : ℚ), 0 ≤ state.coherenceLevel →
      (cognitiveSelectStrategy perf state avail r).2.coherenceLevel =
        state.coherenceLevel * (95 / 100) ∧
      (cognitiveSelectStrategy perf state avail r).2.coherenceLevel ≤
        state.coherenceLevel ∧
      0 ≤ (cognitiveSelectStrategy perf state avail r).2.coherenceLevel) ∧
    (∀ (α : Type) [LinearOrderedField α] [DecidableEq α]
       (state : CognitiveSuperpositionState α) (method : ResolutionMethod) (r : α)
       (res : CognitiveResolutionResult α) (st' : CognitiveSuperpositionState α),
      0 ≤ state.coherence →
      resolveCognitiveState state method r = .ok (res, st') →
      st'.coherence = state.coherence * (9 / 10) ∧
      st'.coherence ≤ state.coherence ∧ 0 ≤ st'.coherence) ∧
    (∀ (ops : List (PerfMap × List StrategyName × ℚ)) stateId concepts strategies amps
       rate,
      (applySelections ops (createCognitiveSuperpositionOrch stateId concepts strategies
        amps rate)).coherenceLevel = (95 / 100) ^ ops.length ∧
      (applySelections ops (createCognitiveSuperpositionOrch stateId concepts strategies
        amps rate)).coherenceLevel ≤ 1) := by
  refine ⟨fun _ _ _ _ _ => rfl, ?_, ?_, ?_, ?_⟩
  · intro concepts st h
    by_cases hne : concepts = []
    · subst hne
      exact absurd h (by simp [createCognitiveSuperpositionMCP])
    · simp only [createCognitiveSuperpositionMCP, if_neg hne, Except.ok.injEq] at h
      rw [← h]
  · intro perf state avail r h0
    refine ⟨rfl, ?_, ?_⟩
    · exact mul_le_of_le_one_right h0 (by norm_num)
    · exact mul_nonneg h0 (by norm_num)
  · intro α _ _ state method r res st' h0 h
    simp only [resolveCognitiveState] at h
    split at h
    · exact absurd h (by simp)
    · simp only [Except.ok.injEq, Prod.mk.injEq] at h
      obtain ⟨-, hst⟩ := h
      rw [← hst]
      refine ⟨rfl, ?_, ?_⟩
      · exact mul_le_of_le_one_right h0 (by norm_num)
      · exact mul_nonneg h0 (by norm_num)
  · intro ops stateId concepts strategies amps rate
    have h := applySelections_coherence ops
      (createCognitiveSuperpositionOrch stateId concepts strategies amps rate)
    rw [h]
    have hcreate : (createCognitiveSuperpositionOrch stateId concepts strategies amps
      rate).coherenceLevel = 1 := rfl
    rw [hcreate, one_mul]
    exact ⟨rfl, pow_le_one₀ (by norm_num) (by norm_num)⟩

/-- **C9, witness.**  The decay theorem applied to concrete inputs: a
selector measurement on `stateC7` (coherence `1`), a resolution on
`stateC3`, and the MCP creation on `["A"]`. -/
theorem coherence_starts_one_and_decays_witness :
    (cognitiveSelectStrategy perfC7 stateC7 ["Abductive"] 0).2.coherenceLevel ≤
      stateC7.coherenceLevel ∧
    (∃ st : CognitiveSuperpositionState ℝ,
      createCognitiveSuperpositionMCP ["A"] = .ok st ∧ st.coherence = 1) ∧
    (∃ (res : CognitiveResolutionResult ℚ) (st' : CognitiveSuperpositionState ℚ),
      resolveCognitiveState stateC3 .highestConfidence 0 = .ok (res, st') ∧
      st'.coherence ≤ stateC3.coherence) := by
  refine ⟨?_, ?_, ?_⟩
  · exact ((coherence_starts_one_and_decays.2.2.1 perfC7 stateC7 ["Abductive"] 0)
      (by norm_num [stateC7])).2.1
  · have hc : createCognitiveSuperpositionMCP ["A"] = .ok
        { id := "cogstate", concepts := ["A"]
          hypothesisWeights := [{ confidence := 1 / Real.sqrt ((1 : ℕ) : ℝ)
                                  potential := 1 / Real.sqrt ((1 : ℕ) : ℝ) }]
          coherence := 1, linkedStateIds := [], instabilityRate := 5 / 100
          resolutionCount := 0 } := by
      simp [createCognitiveSuperpositionMCP]
    exact ⟨_, hc, coherence_starts_one_and_decays.2.1 ["A"] _ hc⟩
  · have hprobs : stateC3.hypothesisWeights.map (fun w => w.confidence * w.confidence) =
        [1, 1] := by
      norm_num [stateC3]
    have hmax : List.max? [(1 : ℚ), 1] = some 1 := by
      simp [List.max?_cons']
    have hres : resolveCognitiveState stateC3 .highestConfidence 0 = .ok
        ({ stateId := "st3", resolvedConcept := "a", reasoningPath := ["a"]
           confidence := 1, postResolutionCoherence := 1 * (9 / 10) },
         { stateC3 with resolutionCount := 1, coherence := 1 * (9 / 10) }) := by
      simp only [resolveCognitiveState, resolveSelectedIndex, hprobs, hmax,
        List.indexOf_cons_self]
      norm_num [stateC3, Except.map]
    refine ⟨_, _, hres, ?_⟩
    exact ((coherence_starts_one_and_decays.2.2.2.1 ℚ stateC3 .highestConfidence 0 _ _
      (by norm_num [stateC3]) hres)).2.1

end Metacog
